import Mathlib

/-!
A shallow embedding of the Markdown-to-Word conversion core of the
GPT-to-Word plugin (`src/src/taskpane/taskpane.js`), together with
theorems about the behaviour its specification describes.

The embedding models the parsed DOM tree (`Node`), the table parser
`parseHTMLTable`, the table inserter `insertWordTable` and the recursive
projector `processNode`.  Side effects on the Word document are recorded
as a trace of `DocOp` values in the order the JavaScript code issues
them; host capabilities that the code probes (paragraph formats,
`clearFormats`, `context.sync()` outcomes) are made explicit in a
`HostEnv` record; a thrown JavaScript exception is an explicit
`JsError` value.
-/

/-! ### JavaScript string primitives

`String.prototype.trim` / `toLowerCase` and friends are re-implemented
over the character list of a string (restricted to ASCII data, which is
all the code under test manipulates), so that every definition in this
file evaluates by kernel reduction. -/

/-- Whitespace characters of the JavaScript `\s` class (ASCII part), as used
by `String.prototype.trim` and by the `<br\s*\/?>` regular expression. -/
def isJsSpace (c : Char) : Bool :=
  c = ' ' ∨ c = '\t' ∨ c = '\n' ∨ c = '\r' ∨ c = '\x0b' ∨ c = '\x0c'

/-- JavaScript `String.prototype.trim`: drop leading and trailing whitespace. -/
def jsTrim (s : String) : String :=
  String.mk ((s.data.dropWhile isJsSpace).reverse.dropWhile isJsSpace).reverse

/-- Lower-case a single ASCII letter, as `String.prototype.toLowerCase`
does character-wise on ASCII data. -/
def lowerChar (c : Char) : Char :=
  if c.toNat ≥ 65 ∧ c.toNat ≤ 90 then Char.ofNat (c.toNat + 32) else c

/-- JavaScript `String.prototype.toLowerCase` (ASCII). -/
def lowerStr (s : String) : String := String.mk (s.data.map lowerChar)

example : jsTrim "  a b\t" = "a b" := rfl
example : lowerStr "TaBLe" = "table" := rfl

/-! ### The DOM model

`markdown-it` output is parsed by the browser into a DOM tree
(`container.innerHTML = renderedHTML`); the code then walks
`container.childNodes`.  A node is either a text node or an element with
a tag name and ordered children. -/

/-- A parsed DOM node: a text node (`Node.TEXT_NODE`) or an element
(`Node.ELEMENT_NODE`) with a tag name and its ordered child nodes. -/
inductive Node where
  | text (s : String)
  | elem (tag : String) (children : List Node)
deriving Repr

/-- Is this an element node (`nodeType === Node.ELEMENT_NODE`)? -/
def isElementNode : Node → Bool
  | .text _ => false
  | .elem _ _ => true

/-- The element's tag name lower-cased (`node.nodeName.toLowerCase()`);
`"#text"` for a text node. -/
def tagNameLower : Node → String
  | .text _ => "#text"
  | .elem tag _ => lowerStr tag

/-- The direct child nodes (`node.childNodes`). -/
def childNodes : Node → List Node
  | .text _ => []
  | .elem _ cs => cs

/-- The direct element children (`node.children`). -/
def elementChildren (n : Node) : List Node := (childNodes n).filter isElementNode

/-- The first child node, if any (`node.firstChild`). -/
def firstChildNode (n : Node) : Option Node := (childNodes n).head?

mutual
/-- `node.textContent`: the concatenated text of the node's whole subtree. -/
def textContent : Node → String
  | .text s => s
  | .elem _ cs => textContentList cs
/-- `textContent` concatenated over a list of sibling nodes, in order. -/
def textContentList : List Node → String
  | [] => ""
  | c :: cs => textContent c ++ textContentList cs
end

mutual
/-- All element descendants of a node, in document (pre)order, excluding
the node itself: the search space of `querySelectorAll`. -/
def descendantElems : Node → List Node
  | .text _ => []
  | .elem _ cs => descendantElemsList cs
/-- The element nodes of a sibling list together with all their element
descendants, in document order. -/
def descendantElemsList : List Node → List Node
  | [] => []
  | c :: rest => (if isElementNode c then [c] else []) ++ descendantElems c ++ descendantElemsList rest
end

/-- `node.querySelectorAll(sel)` for a selector that is a comma-separated
list of tag names: the element descendants whose tag is one of `tags`,
in document order. -/
def querySelectorAll (tags : List String) (n : Node) : List Node :=
  (descendantElems n).filter (fun e => tags.contains (tagNameLower e))

/-- `node.querySelector(sel)` for a tag-list selector: the first match of
`querySelectorAll` in document order, if any. -/
def querySelectorFirst (tags : List String) (n : Node) : Option Node :=
  (querySelectorAll tags n).head?

mutual
/-- A size measure on nodes, used to justify the recursion of the list
projector (which re-enters the tree at `querySelector` results). -/
def nodeSize : Node → Nat
  | .text _ => 1
  | .elem _ cs => 1 + nodeListSize cs
/-- Sum of `nodeSize` over a list of nodes. -/
def nodeListSize : List Node → Nat
  | [] => 0
  | c :: cs => nodeSize c + nodeListSize cs
end

/-! ### HTML serialization

`node.innerHTML` re-serializes the children; text is escaped the way the
HTML fragment serialization algorithm escapes character data. -/

/-- Escape one character of a text node for `innerHTML` serialization. -/
def escapeTextChar (c : Char) : String :=
  if c = '&' then "&amp;"
  else if c = '<' then "&lt;"
  else if c = '>' then "&gt;"
  else if c = '\xA0' then "&nbsp;"
  else String.mk [c]

/-- Escape a text node's data for `innerHTML` serialization. -/
def escapeText (s : String) : String := String.join (s.data.map escapeTextChar)

/-- HTML void elements, serialized without a closing tag. -/
def isVoidTag (t : String) : Bool :=
  ["area", "base", "br", "col", "embed", "hr", "img", "input",
   "link", "meta", "param", "source", "track", "wbr"].contains (lowerStr t)

mutual
/-- Serialize a node as HTML markup (attributes are not modelled). -/
def outerHTML : Node → String
  | .text s => escapeText s
  | .elem t cs =>
    if isVoidTag t then "<" ++ t ++ ">"
    else "<" ++ t ++ ">" ++ innerHTMLList cs ++ "</" ++ t ++ ">"
/-- Serialize a sibling list as HTML markup, in order. -/
def innerHTMLList : List Node → String
  | [] => ""
  | c :: cs => outerHTML c ++ innerHTMLList cs
end

/-- `node.innerHTML`: the serialized markup of the node's children. -/
def innerHTML : Node → String
  | .text _ => ""
  | .elem _ cs => innerHTMLList cs

example :
    innerHTML (.elem "p" [.text "a", .elem "b" [.text "x"], .elem "br" []]) =
      "a<b>x</b><br>" := rfl
example : textContent (.elem "li" [.text "a", .elem "ul" [.elem "li" [.text "x"]]]) = "ax" := rfl

/-! ### Word host model

The Word JavaScript API surface the code touches, reduced to the pieces
observable at this level: the trace of sink operations issued, the
built-in styles and border positions used, the capabilities the code
probes, and the exceptions a call can throw. -/

/-- The built-in Word styles the code assigns (`Word.Style.*`). -/
inductive WordStyle where
  | heading1
  | heading2
  | heading3
  | listParagraph
deriving Repr, DecidableEq

/-- The border positions the code sets (`Word.BorderType.*`). -/
inductive WordBorder where
  | insideHorizontal
  | insideVertical
  | top
  | bottom
  | left
  | right
deriving Repr, DecidableEq

/-- A thrown JavaScript exception, as observable here: a `TypeError` from
reading a property of `undefined`, or an error rejected by a Word host
call (`context.sync()` and friends). -/
inductive JsError where
  | typeError
  | hostError
deriving Repr, DecidableEq

/-- One operation issued against the Word document, in issue order.
`setStyleBuiltIn`, `insertHtml`, `clearFormats`, border and spacing
operations target the element created by the closest preceding insert
operation, exactly as the code holds its handle. -/
inductive DocOp where
  | insertParagraph (text : String)
  | setStyleBuiltIn (style : WordStyle)
  | insertHtml (html : String)
  | insertTable (rows : Nat) (cols : Nat) (grid : List (List String))
  | clearFormats
  | setBorderColor (border : WordBorder) (color : String)
  | setSpaceBefore (pts : Nat)
  | setSpaceAfter (pts : Nat)
deriving Repr, DecidableEq

/-- Host capabilities and sync outcomes that the code probes or depends
on.  A `true` flag means the corresponding host feature works; the code
reacts to `false` flags with its guards and `try`/`catch` blocks — or
fails to, which is part of what is under verification here. -/
structure HostEnv where
  /-- The `context.load`/`context.sync` calls inside the heading
  `try` block succeed and `paragraph.paragraphFormat` is present, so the
  heading `spaceAfter = 0` adjustment is applied.  When `false`, the
  `catch` swallows the failure (or the guard skips the assignment) and no
  spacing operation is issued. -/
  headingSpacingWorks : Bool
  /-- `typeof table.clearFormats === "function"` holds and the call does
  not throw; when `false` the `try`/`catch` logs and moves on. -/
  clearFormatsAvailable : Bool
  /-- The `context.load(table, "rows/items/cells/items")` +
  `await context.sync()` pair inside `insertWordTable` succeeds.  When
  `false` the awaited sync rejects and the exception propagates: there is
  no `try`/`catch` around it. -/
  tableLoadSyncOk : Bool
  /-- `table.getRange()` and its `paragraphFormat` are truthy, so the
  `spaceBefore`/`spaceAfter` assignments are issued; when `false` the
  `else` branch logs and skips them. -/
  tableRangeParagraphFormatPresent : Bool
  /-- The final `await context.sync()` of `insertWordTable` succeeds.
  When `false` the exception propagates uncaught. -/
  tableFinalSyncOk : Bool
deriving Repr, DecidableEq

/-- A host environment in which every probed capability works. -/
def envAllOk : HostEnv :=
  { headingSpacingWorks := true
    clearFormatsAvailable := true
    tableLoadSyncOk := true
    tableRangeParagraphFormatPresent := true
    tableFinalSyncOk := true }

/-- `debugLog`: append a message to the side panel's debug area.  The
debug area is the only mutable state outside the Word document that the
parsing code touches; it is threaded explicitly as a list of lines. -/
def debugLog (log : List String) (msg : String) : List String := log ++ [msg ++ "\n"]

/-! ### parseHTMLTable -/

/-- The cell elements of a row: `rowElem.querySelectorAll("td, th")`. -/
def rowCells (rowElem : Node) : List Node := querySelectorAll ["td", "th"] rowElem

/-- One cell's string: `cellElem.textContent.trim() || " "` — the trimmed
text, with an empty result replaced by a single space. -/
def cellString (cellElem : Node) : String :=
  let t := jsTrim (textContent cellElem)
  if t = "" then " " else t

/-- The row vectors collected by `parseHTMLTable`'s loop: for each
`tr` descendant, the cell strings of its `td`/`th` descendants; rows with
zero cells are skipped (`continue`). -/
def collectedRows (tableElem : Node) : List (List String) :=
  (querySelectorAll ["tr"] tableElem).filterMap (fun rowElem =>
    let cells := rowCells rowElem
    if cells.isEmpty then none else some (cells.map cellString))

/-- `parseHTMLTable(tableElem)` with the debug area threaded through.
Returns `.ok none` for the `return null` paths, `.ok (some tableData)`
for a successfully parsed grid, and `.error .typeError` where the
JavaScript code evaluates `tableData[0].length` with `tableData` empty —
`tableData[0]` is `undefined` and reading `.length` throws. -/
def parseHTMLTableLog (tableElem : Node) (log : List String) :
    Except JsError (Option (List (List String))) × List String :=
  let rows := querySelectorAll ["tr"] tableElem
  if rows.length < 1 then (.ok none, log)
  else
    match collectedRows tableElem with
    | [] => (.error .typeError, log)
    | first :: rest =>
      let colCount := first.length
      if (first :: rest).all (fun r => r.length = colCount) then
        (.ok (some (first :: rest)), log)
      else
        (.ok none, debugLog log "Invalid table: inconsistent column counts")

/-- `parseHTMLTable(tableElem)`: the extraction result alone. -/
def parseHTMLTable (tableElem : Node) : Except JsError (Option (List (List String))) :=
  (parseHTMLTableLog tableElem []).1

/-! ### insertWordTable -/

/-- The defensive loop at the top of `insertWordTable`: any falsy
(empty) cell is replaced by a single space before insertion. -/
def normalizeGrid (tableData : List (List String)) : List (List String) :=
  tableData.map (fun r => r.map (fun c => if c = "" then " " else c))

/-- The six `table.getBorder(...).color = "#000000"` assignments, in
issue order. -/
def borderOps : List DocOp :=
  [.setBorderColor .insideHorizontal "#000000",
   .setBorderColor .insideVertical "#000000",
   .setBorderColor .top "#000000",
   .setBorderColor .bottom "#000000",
   .setBorderColor .left "#000000",
   .setBorderColor .right "#000000"]

/-- `insertWordTable(body, tableData, context)`: normalize the grid,
issue the `insertTable` with `tableData.length` rows and
`tableData[0].length` columns, optionally `clearFormats` (guarded by a
`typeof` check and a `try`/`catch`), set the six borders, then attempt
the zero-spacing adjustment.  The `context.load`/`await context.sync()`
pair and the final `await context.sync()` are not guarded: if either
rejects, the exception propagates (`.hostError`).  Returns the trace of
operations issued and the propagated exception, if any. -/
def insertWordTable (env : HostEnv) (tableData : List (List String)) :
    List DocOp × Option JsError :=
  let td := normalizeGrid tableData
  match td with
  | [] => ([], some .typeError)
  | first :: rest =>
    let rows := (first :: rest).length
    let cols := first.length
    let base :=
      DocOp.insertTable rows cols (first :: rest) ::
        (if env.clearFormatsAvailable then [DocOp.clearFormats] else []) ++ borderOps
    if env.tableLoadSyncOk = false then (base, some .hostError)
    else
      let withSpacing :=
        base ++
          (if env.tableRangeParagraphFormatPresent then
            [DocOp.setSpaceBefore 0, DocOp.setSpaceAfter 0]
          else [])
      if env.tableFinalSyncOk = false then (withSpacing, some .hostError)
      else (withSpacing, none)

/-! ### The paragraph branch's markup stripping

`rawHtml.replace(/<br\s*\/?>/gi, "").replace(/&nbsp;/gi, "").trim()`,
re-implemented as single left-to-right passes over the character list,
exactly as a global regex replace scans. -/

/-- Match the tail of a `<br\s*\/?>` tag: the characters after `"<br"`
must be whitespace, then an optional `/`, then `>`.  Returns the
remaining input after the tag on a match. -/
def brTagTail : List Char → Option (List Char)
  | [] => none
  | c :: rest =>
    if isJsSpace c then brTagTail rest
    else if c = '/' then
      match rest with
      | d :: r => if d = '>' then some r else none
      | [] => none
    else if c = '>' then some rest
    else none

/-- Try to match a whole `<br\s*\/?>` tag (case-insensitively) at the
start of the input (the characters after a `<`). -/
def brTagAt : List Char → Option (List Char)
  | b :: r :: rest =>
    if lowerChar b = 'b' ∧ lowerChar r = 'r' then brTagTail rest else none
  | _ => none

/-- One pass of `.replace(/<br\s*\/?>/gi, "")`, fuelled by the input
length: on a match the scan continues after the tag, otherwise it copies
one character and moves on, exactly like a global regex replace. -/
def stripBrF : Nat → List Char → List Char
  | 0, l => l
  | _ + 1, [] => []
  | fuel + 1, c :: rest =>
    if c = '<' then
      match brTagAt rest with
      | some r => stripBrF fuel r
      | none => '<' :: stripBrF fuel rest
    else c :: stripBrF fuel rest

/-- `.replace(/<br\s*\/?>/gi, "")` over a character list. -/
def stripBrChars (l : List Char) : List Char := stripBrF l.length l

/-- One pass of `.replace(/&nbsp;/gi, "")`: on a (case-insensitive)
match of the six characters `&nbsp;` the scan continues after them,
otherwise it copies one character and moves on. -/
def stripNbspChars : List Char → List Char
  | '&' :: c1 :: c2 :: c3 :: c4 :: ';' :: rest =>
    if lowerChar c1 = 'n' ∧ lowerChar c2 = 'b' ∧ lowerChar c3 = 's' ∧ lowerChar c4 = 'p' then
      stripNbspChars rest
    else '&' :: stripNbspChars (c1 :: c2 :: c3 :: c4 :: ';' :: rest)
  | c :: rest => c :: stripNbspChars rest
  | [] => []

/-- The `<p>` branch's emptiness probe:
`rawHtml.replace(/<br\s*\/?>/gi, "").replace(/&nbsp;/gi, "").trim()`. -/
def strippedParagraphMarkup (rawHtml : String) : String :=
  jsTrim (String.mk (stripNbspChars (stripBrChars rawHtml.data)))

example : strippedParagraphMarkup "  <br/> &nbsp; <BR > " = "" := rfl
example : strippedParagraphMarkup "a<br>b" = "ab" := rfl

/-! ### The list branch

`processNode`'s `<ul>`/`<ol>` branch only ever recurses into nodes found
by `li.querySelector("ul, ol")`, which are again `ul`/`ol` elements, so
list processing is self-contained.  Because `querySelector` re-enters
the tree at an arbitrary descendant, the recursion is fuelled; the
wrapper `processList` supplies `nodeSize` fuel, which the stability
lemmas below prove sufficient. -/

/-- The indentation of a list line: `" ".repeat(level * 4)`. -/
def indentStr (level : Nat) : String := String.mk (List.replicate (level * 4) ' ')

/-- The direct `li` element children of a list node:
`Array.from(node.children).filter(li => li.nodeName.toLowerCase() === "li")`. -/
def listItems (node : Node) : List Node :=
  (elementChildren node).filter (fun li => tagNameLower li = "li")

/-- A list item's own line text:
`li.firstChild?.textContent.trim() || ""`. -/
def listItemText (li : Node) : String :=
  match firstChildNode li with
  | some fc => jsTrim (textContent fc)
  | none => ""

/-- The nested list inside a list item, if any:
`li.querySelector("ul, ol")`. -/
def nestedListOf (li : Node) : Option Node := querySelectorFirst ["ul", "ol"] li

/-- The line marker of the `i`-th item (0-based loop index):
`` isOrdered ? `${i + 1}.` : "•" ``. -/
def itemMarker (isOrdered : Bool) (i : Nat) : String :=
  if isOrdered then toString (i + 1) ++ "." else "•"

mutual
/-- The `<ul>`/`<ol>` branch of `processNode`, fuelled: determine
ordering from the tag, collect the direct `li` children, skip the list
if there are none, and process the items from loop index `0`. -/
def processListF : Nat → HostEnv → Node → Nat → List DocOp
  | 0, _, _, _ => []
  | fuel + 1, env, node, level =>
    let isOrdered := tagNameLower node = "ol"
    let items := listItems node
    if items.isEmpty then [] else processItemsF fuel env isOrdered items 0 level
/-- The item loop: for each `li`, insert the paragraph
`indent + marker + " " + text`, give it the list-paragraph style, and, if
the item contains a nested list, recurse into it with `level + 1`. -/
def processItemsF : Nat → HostEnv → Bool → List Node → Nat → Nat → List DocOp
  | _, _, _, [], _, _ => []
  | 0, _, _, _ :: _, _, _ => []
  | fuel + 1, env, isOrdered, li :: rest, i, level =>
    DocOp.insertParagraph (indentStr level ++ itemMarker isOrdered i ++ " " ++ listItemText li) ::
      DocOp.setStyleBuiltIn .listParagraph ::
      ((match nestedListOf li with
        | some nested => processListF fuel env nested (level + 1)
        | none => []) ++
        processItemsF fuel env isOrdered rest (i + 1) level)
end

/-- Process a `ul`/`ol` node (the fuelled projector with enough fuel). -/
def processList (env : HostEnv) (node : Node) (level : Nat) : List DocOp :=
  processListF (nodeSize node) env node level

/-! ### processNode -/

/-- The style keyed by heading tag in the `if`/`else` chain of the
heading branch: `h1 → heading1`, `h2 → heading2`, otherwise `heading3`. -/
def headingStyleFor (tagName : String) : WordStyle :=
  if tagName = "h1" then .heading1
  else if tagName = "h2" then .heading2
  else .heading3

mutual
/-- `processNode(node, body, context, level)`: the recursive projector.
Returns the trace of document operations issued for this node, and the
exception that escaped it, if any (`processNode` has no `try`/`catch` of
its own, so exceptions from `parseHTMLTable` or `insertWordTable`
propagate).  Dispatch order mirrors the source: text nodes, headings,
lists, tables, paragraphs, generic containers, fallback. -/
def processNode (env : HostEnv) : Node → Nat → List DocOp × Option JsError
  | .text s, _ =>
    let text := jsTrim s
    (if text = "" then [] else [DocOp.insertParagraph text], none)
  | .elem tag cs, level =>
    let tagName := lowerStr tag
    if tagName = "h1" ∨ tagName = "h2" ∨ tagName = "h3" then
      let headingText := jsTrim (textContent (.elem tag cs))
      if headingText = "" then ([], none)
      else
        (DocOp.insertParagraph headingText ::
          DocOp.setStyleBuiltIn (headingStyleFor tagName) ::
          (if env.headingSpacingWorks then [DocOp.setSpaceAfter 0] else []), none)
    else if tagName = "ul" ∨ tagName = "ol" then
      (processList env (.elem tag cs) level, none)
    else if tagName = "table" then
      match parseHTMLTable (.elem tag cs) with
      | .error e => ([], some e)
      | .ok none => ([], none)
      | .ok (some tableData) => insertWordTable env tableData
    else if tagName = "p" then
      let rawHtml := innerHTML (.elem tag cs)
      if strippedParagraphMarkup rawHtml = "" then ([], none)
      else ([DocOp.insertParagraph "", DocOp.insertHtml rawHtml], none)
    else if tagName = "div" ∨ tagName = "section" ∨ tagName = "article" then
      processChildren env cs level
    else
      let fallbackText := jsTrim (textContent (.elem tag cs))
      (if fallbackText = "" then [] else [DocOp.insertParagraph fallbackText], none)
/-- Process a list of sibling nodes in document order, concatenating
their operation traces.  Each call is awaited, so the first exception
aborts the remaining iterations — this is both the `for` loop of
`convertMarkdownToWord` over `container.childNodes` and the loop of the
generic-container branch. -/
def processChildren (env : HostEnv) : List Node → Nat → List DocOp × Option JsError
  | [], _ => ([], none)
  | c :: rest, level =>
    match processNode env c level with
    | (ops, some e) => (ops, some e)
    | (ops, none) =>
      let r := processChildren env rest level
      (ops ++ r.1, r.2)
end

/-! ### Observations on operation traces -/

/-- The texts of the paragraphs created by a trace, in order (each
`insertParagraph` is one paragraph appended to the document). -/
def paragraphTexts (ops : List DocOp) : List String :=
  ops.filterMap (fun op =>
    match op with
    | .insertParagraph t => some t
    | _ => none)

/-- Is this operation a table insertion? -/
def isTableOp : DocOp → Bool
  | .insertTable .. => true
  | _ => false

/-- How many tables a trace appends to the document. -/
def countTableOps (ops : List DocOp) : Nat := (ops.filter isTableOp).length

example :
    processNode envAllOk (.elem "h2" [.text "  Title "]) 0 =
      ([.insertParagraph "Title", .setStyleBuiltIn .heading2, .setSpaceAfter 0], none) := rfl

example :
    processNode envAllOk
      (.elem "ul"
        [.elem "li" [.text "a",
           .elem "ol" [.elem "li" [.text "x"], .elem "li" [.text "y"]]],
         .elem "li" [.text "b"]]) 0 =
      ([.insertParagraph "• a", .setStyleBuiltIn .listParagraph,
        .insertParagraph "    1. x", .setStyleBuiltIn .listParagraph,
        .insertParagraph "    2. y", .setStyleBuiltIn .listParagraph,
        .insertParagraph "• b", .setStyleBuiltIn .listParagraph], none) := rfl

example :
    processNode envAllOk
      (.elem "table"
        [.elem "tr" [.elem "td" [.text " x "], .elem "th" [.text ""]],
         .elem "tr" [.elem "td" [.text "1"], .elem "td" [.text "2"]]]) 0 =
      (DocOp.insertTable 2 2 [["x", " "], ["1", "2"]] ::
        DocOp.clearFormats :: borderOps ++ [.setSpaceBefore 0, .setSpaceAfter 0], none) := rfl

/-! ### Size lemmas

These justify that `nodeSize` fuel is always sufficient for the fuelled
list projector. -/

theorem nodeSize_pos (n : Node) : 1 ≤ nodeSize n := by
  cases n <;> simp [nodeSize]

theorem nodeSize_le_of_mem {c : Node} {cs : List Node} (h : c ∈ cs) :
    nodeSize c ≤ nodeListSize cs := by
  induction cs with
  | nil => cases h
  | cons a as ih =>
    cases h with
    | head =>
      simp only [nodeListSize]
      omega
    | tail _ h2 =>
      have := ih h2
      simp only [nodeListSize]
      omega

theorem nodeListSize_filter_le (p : Node → Bool) (cs : List Node) :
    nodeListSize (cs.filter p) ≤ nodeListSize cs := by
  induction cs with
  | nil => simp
  | cons a as ih =>
    by_cases hp : p a = true
    · simp only [List.filter_cons, hp, if_pos, nodeListSize]
      omega
    · simp only [List.filter_cons, hp]
      simp only [Bool.false_eq_true, if_false, nodeListSize]
      omega

theorem nodeSize_le_of_mem_descendantElemsList :
    ∀ (n : Nat) (cs : List Node), nodeListSize cs ≤ n →
      ∀ m ∈ descendantElemsList cs, nodeSize m ≤ nodeListSize cs := by
  intro n
  induction n using Nat.strong_induction_on with
  | _ n ih =>
    intro cs hcs m hm
    match cs with
    | [] => cases hm
    | c :: rest =>
      have hc1 : 1 ≤ nodeSize c := nodeSize_pos c
      have hn1 : 1 ≤ n := by
        simp only [nodeListSize] at hcs
        omega
      simp only [descendantElemsList, List.append_assoc, List.mem_append] at hm
      rcases hm with hm | hm | hm
      · have : m = c := by
          by_cases he : isElementNode c = true
          · simpa [he] using hm
          · simp [he] at hm
        subst this
        simp only [nodeListSize]
        omega
      · match c, hm with
        | .elem t cs2, hm =>
          have hsz : nodeSize (Node.elem t cs2) = 1 + nodeListSize cs2 := by
            simp [nodeSize]
          have hcs2 : nodeListSize cs2 ≤ n - 1 := by
            simp only [nodeListSize] at hcs
            omega
          have := ih (n - 1) (by omega) cs2 hcs2 m (by simpa [descendantElems] using hm)
          simp only [nodeListSize]
          omega
      · have hrest : nodeListSize rest ≤ n - 1 := by
          simp only [nodeListSize] at hcs
          omega
        have := ih (n - 1) (by omega) rest hrest m hm
        simp only [nodeListSize]
        omega

theorem nodeSize_lt_of_mem_descendantElems {m node : Node}
    (h : m ∈ descendantElems node) : nodeSize m < nodeSize node := by
  match node with
  | .text s => simp [descendantElems] at h
  | .elem t cs =>
    have := nodeSize_le_of_mem_descendantElemsList (nodeListSize cs) cs le_rfl m
      (by simpa [descendantElems] using h)
    simp only [nodeSize]
    omega

theorem nodeSize_lt_of_nestedListOf {li nl : Node} (h : nestedListOf li = some nl) :
    nodeSize nl < nodeSize li := by
  have hmem : nl ∈ descendantElems li := by
    unfold nestedListOf querySelectorFirst at h
    have hmem2 : nl ∈ querySelectorAll ["ul", "ol"] li := by
      match hq : querySelectorAll ["ul", "ol"] li with
      | [] => rw [hq] at h; simp at h
      | a :: as =>
        rw [hq] at h
        simp only [List.head?] at h
        injection h with h
        subst h
        exact hq ▸ List.mem_cons_self a as
    exact List.mem_of_mem_filter hmem2
  exact nodeSize_lt_of_mem_descendantElems hmem

theorem nodeListSize_listItems_le (tag : String) (cs : List Node) :
    nodeListSize (listItems (.elem tag cs)) ≤ nodeListSize cs := by
  unfold listItems elementChildren
  calc nodeListSize (((childNodes (.elem tag cs)).filter isElementNode).filter
          (fun li => tagNameLower li = "li"))
      ≤ nodeListSize ((childNodes (.elem tag cs)).filter isElementNode) :=
        nodeListSize_filter_le _ _
    _ ≤ nodeListSize (childNodes (.elem tag cs)) := nodeListSize_filter_le _ _
    _ = nodeListSize cs := by simp [childNodes]

/-! ### Fuel stability of the list projector -/

theorem processF_stable : ∀ (n : Nat),
    (∀ (node : Node), nodeSize node ≤ n →
      ∀ (f f' : Nat) (env : HostEnv) (level : Nat), nodeSize node ≤ f → nodeSize node ≤ f' →
        processListF f env node level = processListF f' env node level) ∧
    (∀ (items : List Node), nodeListSize items ≤ n →
      ∀ (f f' : Nat) (env : HostEnv) (o : Bool) (i level : Nat),
        nodeListSize items ≤ f → nodeListSize items ≤ f' →
        processItemsF f env o items i level = processItemsF f' env o items i level) := by
  intro n
  induction n using Nat.strong_induction_on with
  | _ n ih =>
    constructor
    · intro node hn f f' env level hf hf'
      have h1 : 1 ≤ nodeSize node := nodeSize_pos node
      obtain ⟨g, rfl⟩ := Nat.exists_eq_succ_of_ne_zero (show f ≠ 0 by omega)
      obtain ⟨g', rfl⟩ := Nat.exists_eq_succ_of_ne_zero (show f' ≠ 0 by omega)
      simp only [processListF]
      by_cases hempty : (listItems node).isEmpty
      · simp [hempty]
      · simp only [hempty, Bool.false_eq_true, if_false]
        have hitems : nodeListSize (listItems node) ≤ nodeSize node - 1 := by
          match node with
          | .text s =>
            simp [listItems, elementChildren, childNodes] at hempty
          | .elem tag cs =>
            have := nodeListSize_listItems_le tag cs
            simp only [nodeSize]
            omega
        exact (ih (n - 1) (by omega)).2 (listItems node) (by omega) g g' env _ 0 level
          (by omega) (by omega)
    · intro items hits f f' env o i level hf hf'
      match items with
      | [] => simp [processItemsF]
      | li :: rest =>
        have hli1 : 1 ≤ nodeSize li := nodeSize_pos li
        have hsz : nodeListSize (li :: rest) = nodeSize li + nodeListSize rest := by
          simp [nodeListSize]
        obtain ⟨g, rfl⟩ := Nat.exists_eq_succ_of_ne_zero (show f ≠ 0 by omega)
        obtain ⟨g', rfl⟩ := Nat.exists_eq_succ_of_ne_zero (show f' ≠ 0 by omega)
        simp only [processItemsF]
        have hn1 : 1 ≤ n := by omega
        have hrest : processItemsF g env o rest (i + 1) level =
            processItemsF g' env o rest (i + 1) level :=
          (ih (n - 1) (by omega)).2 rest (by omega) g g' env o (i + 1) level
            (by omega) (by omega)
        have hmatch :
            (match nestedListOf li with
             | some nested => processListF g env nested (level + 1)
             | none => []) =
            (match nestedListOf li with
             | some nested => processListF g' env nested (level + 1)
             | none => []) := by
          split
          · rename_i nested hnl
            have hnsz : nodeSize nested < nodeSize li := nodeSize_lt_of_nestedListOf hnl
            exact (ih (n - 1) (by omega)).1 nested (by omega) g g' env (level + 1)
              (by omega) (by omega)
          · rfl
        rw [hmatch, hrest]

theorem processListF_eq_processList {f : Nat} (env : HostEnv) (node : Node) (level : Nat)
    (hf : nodeSize node ≤ f) :
    processListF f env node level = processList env node level :=
  (processF_stable (max f (nodeSize node))).1 node (le_max_right _ _) f (nodeSize node)
    env level hf le_rfl

/-! ### The item loop as a flat map over enumerated items -/

theorem processItemsF_eq_flatMap :
    ∀ (items : List Node) (f : Nat), nodeListSize items ≤ f →
      ∀ (env : HostEnv) (o : Bool) (i level : Nat),
        processItemsF f env o items i level =
          (List.enumFrom i items).flatMap (fun p =>
            DocOp.insertParagraph
                (indentStr level ++ itemMarker o p.1 ++ " " ++ listItemText p.2) ::
              DocOp.setStyleBuiltIn .listParagraph ::
              (match nestedListOf p.2 with
               | some nested => processList env nested (level + 1)
               | none => [])) := by
  intro items
  induction items with
  | nil =>
    intro f hf env o i level
    simp [processItemsF, List.enumFrom]
  | cons li rest ih =>
    intro f hf env o i level
    have hli1 : 1 ≤ nodeSize li := nodeSize_pos li
    have hsz : nodeListSize (li :: rest) = nodeSize li + nodeListSize rest := by
      simp [nodeListSize]
    obtain ⟨g, rfl⟩ := Nat.exists_eq_succ_of_ne_zero (show f ≠ 0 by omega)
    simp only [processItemsF, List.enumFrom, List.flatMap_cons]
    rw [ih g (by omega) env o (i + 1) level]
    have hmatch :
        (match nestedListOf li with
         | some nested => processListF g env nested (level + 1)
         | none => []) =
        (match nestedListOf li with
         | some nested => processList env nested (level + 1)
         | none => []) := by
      split
      · rename_i nested hnl
        have hnsz : nodeSize nested < nodeSize li := nodeSize_lt_of_nestedListOf hnl
        exact processListF_eq_processList env nested (level + 1) (by omega)
      · rfl
    rw [hmatch]
    simp [List.cons_append]

theorem processList_elem_eq (env : HostEnv) (tag : String) (cs : List Node) (level : Nat) :
    processList env (.elem tag cs) level =
      if (listItems (.elem tag cs)).isEmpty then []
      else
        (List.enumFrom 0 (listItems (.elem tag cs))).flatMap (fun p =>
          DocOp.insertParagraph
              (indentStr level ++ itemMarker (lowerStr tag = "ol") p.1 ++ " " ++ listItemText p.2) ::
            DocOp.setStyleBuiltIn .listParagraph ::
            (match nestedListOf p.2 with
             | some nested => processList env nested (level + 1)
             | none => [])) := by
  have h1 : 1 ≤ nodeSize (Node.elem tag cs) := nodeSize_pos _
  have hsz : nodeSize (Node.elem tag cs) = 1 + nodeListSize cs := by simp [nodeSize]
  have hitems : nodeListSize (listItems (.elem tag cs)) ≤ nodeListSize cs :=
    nodeListSize_listItems_le tag cs
  rw [show processList env (.elem tag cs) level =
        processListF (nodeSize (.elem tag cs)) env (.elem tag cs) level from rfl]
  obtain ⟨g, hg⟩ :=
    Nat.exists_eq_succ_of_ne_zero (show nodeSize (Node.elem tag cs) ≠ 0 by omega)
  rw [hg]
  simp only [processListF]
  by_cases hempty : (listItems (Node.elem tag cs)).isEmpty
  · simp [hempty]
  · simp only [hempty, Bool.false_eq_true, if_false, tagNameLower]
    rw [processItemsF_eq_flatMap (listItems (.elem tag cs)) g (by omega) env _ 0 level]

/-! ### Claims -/

theorem parseHTMLTableLog_fst (t : Node) (log : List String) :
    (parseHTMLTableLog t log).1 = parseHTMLTable t := by
  unfold parseHTMLTable parseHTMLTableLog
  by_cases h : (querySelectorAll ["tr"] t).length < 1
  · simp [h]
  · simp only [h, if_false]
    match hc : collectedRows t with
    | [] => rfl
    | first :: rest =>
      by_cases hall : (first :: rest).all (fun r => r.length = first.length)
      · simp [hall]
      · simp [hall]

/-- C9: `TableExtractor.extract` (`parseHTMLTable`) is a pure,
deterministic function of the table node it is given: its result is
independent of the debug-area state accumulated by earlier calls (the
only external state the function touches), so re-running it on the same
node yields the identical grid or the identical rejection. -/
theorem claim_C9_extract_deterministic (t : Node) (log1 log2 : List String) :
    (parseHTMLTableLog t log1).1 = (parseHTMLTableLog t log2).1 ∧
    (parseHTMLTableLog t log1).1 = parseHTMLTable t :=
  ⟨(parseHTMLTableLog_fst t log1).trans (parseHTMLTableLog_fst t log2).symm,
   parseHTMLTableLog_fst t log1⟩

/-- C2 (refuted — code bug): `TableExtractor.extract` is not total on
tables whose every row has zero cells.  For `<table><tr></tr></table>`
the row loop drops the only row, `tableData` stays empty, and the
column-consistency check evaluates `tableData[0].length` — reading
`.length` of `undefined` throws a `TypeError` instead of returning a
grid or a rejection; the exception escapes `processNode`. -/
theorem claim_C2_extract_crashes_on_cellless_rows :
    (querySelectorAll ["tr"] (Node.elem "table" [Node.elem "tr" []])).length = 1 ∧
    parseHTMLTable (Node.elem "table" [Node.elem "tr" []]) = .error .typeError ∧
    processNode envAllOk (Node.elem "table" [Node.elem "tr" []]) 0 =
      ([], some .typeError) :=
  ⟨rfl, rfl, rfl⟩

theorem cellString_ne_empty (cellElem : Node) : cellString cellElem ≠ "" := by
  by_cases ht : jsTrim (textContent cellElem) = ""
  · simp [cellString, ht]
  · simp [cellString, ht]

theorem mem_collectedRows_shape {t : Node} {r : List String}
    (h : r ∈ collectedRows t) :
    ∃ rowElem, r = (rowCells rowElem).map cellString := by
  unfold collectedRows at h
  obtain ⟨rowElem, _, heq⟩ := List.mem_filterMap.mp h
  by_cases hc : (rowCells rowElem).isEmpty
  · simp [hc] at heq
  · simp only [hc, Bool.false_eq_true, if_false, Option.some.injEq] at heq
    exact ⟨rowElem, heq.symm⟩

/-- C3: every grid `parseHTMLTable` returns is rectangular — every row
has the first row's length — and every cell of it is a non-empty string
(each cell is the trimmed text, with an empty result normalized to a
single space), so the grid handed to the table-insertion path never
contains an empty-string cell. -/
theorem claim_C3_grid_rectangular_nonempty (t : Node) (g : List (List String))
    (h : parseHTMLTable t = .ok (some g)) :
    (∀ r ∈ g, r.length = g.headI.length) ∧ (∀ r ∈ g, ∀ c ∈ r, c ≠ "") := by
  unfold parseHTMLTable parseHTMLTableLog at h
  by_cases hlen : (querySelectorAll ["tr"] t).length < 1
  · simp [hlen] at h
  · simp only [hlen, if_false] at h
    match hc : collectedRows t with
    | [] =>
      rw [hc] at h
      simp at h
    | first :: rest =>
      rw [hc] at h
      by_cases hall : (first :: rest).all (fun r => r.length = first.length)
      · simp only [hall, if_pos] at h
        simp only [Except.ok.injEq, Option.some.injEq] at h
        subst h
        constructor
        · intro r hr
          simp only [List.headI]
          simp only [List.all_eq_true, decide_eq_true_eq] at hall
          exact hall r hr
        · intro r hr c hcmem
          have hrmem : r ∈ collectedRows t := hc ▸ hr
          obtain ⟨rowElem, hshape⟩ := mem_collectedRows_shape hrmem
          subst hshape
          obtain ⟨cell, _, hceq⟩ := List.mem_map.mp hcmem
          exact hceq ▸ cellString_ne_empty cell
      · simp [hall] at h

/-- Witness for C3 at a concrete two-by-two table (with one header cell
whose trimmed text is empty, exercising the single-space
normalization). -/
theorem claim_C3_witness :
    parseHTMLTable
        (Node.elem "table"
          [Node.elem "tr" [Node.elem "td" [Node.text " x "], Node.elem "th" [Node.text ""]],
           Node.elem "tr" [Node.elem "td" [Node.text "1"], Node.elem "td" [Node.text "2"]]]) =
      .ok (some [["x", " "], ["1", "2"]]) ∧
    ((∀ r ∈ [["x", " "], ["1", "2"]], r.length = ([["x", " "], ["1", "2"]] : List (List String)).headI.length) ∧
      (∀ r ∈ ([["x", " "], ["1", "2"]] : List (List String)), ∀ c ∈ r, c ≠ "")) :=
  ⟨rfl,
   claim_C3_grid_rectangular_nonempty
     (Node.elem "table"
       [Node.elem "tr" [Node.elem "td" [Node.text " x "], Node.elem "th" [Node.text ""]],
        Node.elem "tr" [Node.elem "td" [Node.text "1"], Node.elem "td" [Node.text "2"]]])
     [["x", " "], ["1", "2"]] rfl⟩

/-- The `<table>` dispatch of `processNode`, isolated. -/
theorem processNode_table (env : HostEnv) (cs : List Node) (level : Nat) :
    processNode env (.elem "table" cs) level =
      match parseHTMLTable (.elem "table" cs) with
      | .error e => ([], some e)
      | .ok none => ([], none)
      | .ok (some tableData) => insertWordTable env tableData := rfl

/-- C1: when the collected rows of a table node (zero-cell rows already
dropped) do not all have the first collected row's length,
`parseHTMLTable` rejects the whole table — `null`, never a padded or
truncated grid — and `processNode` consequently issues no operation at
all for the node, in particular zero table insertions. -/
theorem claim_C1_inconsistent_table_rejected (env : HostEnv) (cs : List Node) (level : Nat)
    (h : ∃ r ∈ collectedRows (Node.elem "table" cs),
          r.length ≠ (collectedRows (Node.elem "table" cs)).headI.length) :
    parseHTMLTable (Node.elem "table" cs) = .ok none ∧
    processNode env (Node.elem "table" cs) level = ([], none) ∧
    countTableOps (processNode env (Node.elem "table" cs) level).1 = 0 := by
  obtain ⟨r, hr, hne⟩ := h
  have hnonempty : collectedRows (Node.elem "table" cs) ≠ [] := by
    intro he
    rw [he] at hr
    cases hr
  have hparse : parseHTMLTable (Node.elem "table" cs) = .ok none := by
    unfold parseHTMLTable parseHTMLTableLog
    have hlen : ¬ (querySelectorAll ["tr"] (Node.elem "table" cs)).length < 1 := by
      intro hl
      have hqnil : querySelectorAll ["tr"] (Node.elem "table" cs) = [] := by
        match hq : querySelectorAll ["tr"] (Node.elem "table" cs) with
        | [] => rfl
        | a :: as =>
          rw [hq] at hl
          simp at hl
      have : collectedRows (Node.elem "table" cs) = [] := by
        simp [collectedRows, hqnil]
      exact hnonempty this
    simp only [hlen, if_false]
    match hc : collectedRows (Node.elem "table" cs) with
    | [] => exact absurd hc hnonempty
    | first :: rest =>
      have hallfalse : ¬ ((first :: rest).all (fun row => row.length = first.length) = true) := by
        intro hall
        simp only [List.all_eq_true, decide_eq_true_eq] at hall
        rw [hc] at hr hne
        simp only [List.headI] at hne
        exact hne (hall r hr)
      simp [hallfalse]
  refine ⟨hparse, ?_, ?_⟩
  · rw [processNode_table, hparse]
  · rw [processNode_table, hparse]
    rfl

/-- Witness for C1 at a concrete table whose two collected rows have
lengths 2 and 1. -/
theorem claim_C1_witness :
    (∃ r ∈ collectedRows
        (Node.elem "table"
          [Node.elem "tr" [Node.elem "td" [Node.text "a"], Node.elem "td" [Node.text "b"]],
           Node.elem "tr" [Node.elem "td" [Node.text "c"]]]),
        r.length ≠
          (collectedRows
            (Node.elem "table"
              [Node.elem "tr" [Node.elem "td" [Node.text "a"], Node.elem "td" [Node.text "b"]],
               Node.elem "tr" [Node.elem "td" [Node.text "c"]]])).headI.length) ∧
    (parseHTMLTable
        (Node.elem "table"
          [Node.elem "tr" [Node.elem "td" [Node.text "a"], Node.elem "td" [Node.text "b"]],
           Node.elem "tr" [Node.elem "td" [Node.text "c"]]]) = .ok none ∧
      processNode envAllOk
          (Node.elem "table"
            [Node.elem "tr" [Node.elem "td" [Node.text "a"], Node.elem "td" [Node.text "b"]],
             Node.elem "tr" [Node.elem "td" [Node.text "c"]]]) 0 = ([], none) ∧
      countTableOps
          (processNode envAllOk
            (Node.elem "table"
              [Node.elem "tr" [Node.elem "td" [Node.text "a"], Node.elem "td" [Node.text "b"]],
               Node.elem "tr" [Node.elem "td" [Node.text "c"]]]) 0).1 = 0) :=
  ⟨by decide,
   claim_C1_inconsistent_table_rejected envAllOk
     [Node.elem "tr" [Node.elem "td" [Node.text "a"], Node.elem "td" [Node.text "b"]],
      Node.elem "tr" [Node.elem "td" [Node.text "c"]]] 0 (by decide)⟩

/-- C4: for a heading node (`h1`/`h2`/`h3`), an empty trimmed text
content yields no operation at all, and a non-empty one yields exactly
one paragraph carrying the trimmed literal text, immediately given the
style keyed by heading level, followed at most by the best-effort
spacing adjustment; the level-to-style key is `h1 → Heading1`,
`h2 → Heading2`, `h3 → Heading3`. -/
theorem claim_C4_heading_projection (env : HostEnv) (tag : String) (cs : List Node) (level : Nat)
    (h : lowerStr tag = "h1" ∨ lowerStr tag = "h2" ∨ lowerStr tag = "h3") :
    (jsTrim (textContent (Node.elem tag cs)) = "" →
      processNode env (Node.elem tag cs) level = ([], none)) ∧
    (jsTrim (textContent (Node.elem tag cs)) ≠ "" →
      ∃ spacing : List DocOp,
        processNode env (Node.elem tag cs) level =
          (DocOp.insertParagraph (jsTrim (textContent (Node.elem tag cs))) ::
            DocOp.setStyleBuiltIn (headingStyleFor (lowerStr tag)) :: spacing, none) ∧
        (∀ op ∈ spacing, op = DocOp.setSpaceAfter 0) ∧
        paragraphTexts (processNode env (Node.elem tag cs) level).1 =
          [jsTrim (textContent (Node.elem tag cs))]) ∧
    headingStyleFor "h1" = .heading1 ∧ headingStyleFor "h2" = .heading2 ∧
    headingStyleFor "h3" = .heading3 := by
  have hbranch : processNode env (Node.elem tag cs) level =
      (if jsTrim (textContent (Node.elem tag cs)) = "" then ([], none)
       else
        (DocOp.insertParagraph (jsTrim (textContent (Node.elem tag cs))) ::
          DocOp.setStyleBuiltIn (headingStyleFor (lowerStr tag)) ::
          (if env.headingSpacingWorks then [DocOp.setSpaceAfter 0] else []), none)) := by
    rcases h with h | h | h <;>
      (simp only [processNode]; rw [h]; simp)
  refine ⟨?_, ?_, rfl, rfl, rfl⟩
  · intro he
    rw [hbranch, if_pos he]
  · intro hne
    refine ⟨if env.headingSpacingWorks then [DocOp.setSpaceAfter 0] else [], ?_, ?_, ?_⟩
    · rw [hbranch, if_neg hne]
    · by_cases hw : env.headingSpacingWorks <;> simp [hw]
    · rw [hbranch, if_neg hne]
      by_cases hw : env.headingSpacingWorks <;> simp [hw, paragraphTexts]

/-- Witness for C4: an `h3` with text `" T "` produces exactly one
`Heading3`-styled paragraph `"T"`, and an `h1` with blank text produces
nothing. -/
theorem claim_C4_witness :
    (lowerStr "h3" = "h1" ∨ lowerStr "h3" = "h2" ∨ lowerStr "h3" = "h3") ∧
    (jsTrim (textContent (Node.elem "h3" [Node.text " T "])) ≠ "") ∧
    (∃ spacing : List DocOp,
      processNode envAllOk (Node.elem "h3" [Node.text " T "]) 0 =
        (DocOp.insertParagraph (jsTrim (textContent (Node.elem "h3" [Node.text " T "]))) ::
          DocOp.setStyleBuiltIn (headingStyleFor (lowerStr "h3")) :: spacing, none) ∧
      (∀ op ∈ spacing, op = DocOp.setSpaceAfter 0) ∧
      paragraphTexts (processNode envAllOk (Node.elem "h3" [Node.text " T "]) 0).1 =
        [jsTrim (textContent (Node.elem "h3" [Node.text " T "]))]) ∧
    (jsTrim (textContent (Node.elem "h1" [Node.text "  "])) = "") ∧
    processNode envAllOk (Node.elem "h1" [Node.text "  "]) 0 = ([], none) :=
  ⟨by decide, by decide,
   ((claim_C4_heading_projection envAllOk "h3" [Node.text " T "] 0 (by decide)).2.1 (by decide)),
   by decide,
   ((claim_C4_heading_projection envAllOk "h1" [Node.text "  "] 0 (by decide)).1 (by decide))⟩

/-- The `<p>` dispatch of `processNode`, isolated. -/
theorem processNode_p (env : HostEnv) (cs : List Node) (level : Nat) :
    processNode env (.elem "p" cs) level =
      (if strippedParagraphMarkup (innerHTML (.elem "p" cs)) = "" then ([], none)
       else ([DocOp.insertParagraph "", DocOp.insertHtml (innerHTML (.elem "p" cs))], none)) := rfl

/-- C8: a `p` element whose inner markup is empty once `<br>` tags,
non-breaking-space entities and surrounding whitespace are stripped
produces no paragraph at all; otherwise it produces exactly an empty
placeholder paragraph followed by the rich insertion of the raw,
unstripped inner markup fragment. -/
theorem claim_C8_paragraph_projection (env : HostEnv) (cs : List Node) (level : Nat) :
    (strippedParagraphMarkup (innerHTML (Node.elem "p" cs)) = "" →
      processNode env (Node.elem "p" cs) level = ([], none)) ∧
    (strippedParagraphMarkup (innerHTML (Node.elem "p" cs)) ≠ "" →
      processNode env (Node.elem "p" cs) level =
        ([DocOp.insertParagraph "", DocOp.insertHtml (innerHTML (Node.elem "p" cs))], none)) := by
  constructor
  · intro he
    rw [processNode_p, if_pos he]
  · intro hne
    rw [processNode_p, if_neg hne]

/-- Witness for C8: a `p` holding only `<br>` and a non-breaking space
is skipped, while `Hi <b>there</b>` is inserted verbatim through the
rich-insert path. -/
theorem claim_C8_witness :
    (strippedParagraphMarkup (innerHTML (Node.elem "p" [Node.elem "br" [], Node.text "\xA0 "])) = "") ∧
    processNode envAllOk (Node.elem "p" [Node.elem "br" [], Node.text "\xA0 "]) 0 = ([], none) ∧
    (strippedParagraphMarkup (innerHTML (Node.elem "p" [Node.text "Hi ", Node.elem "b" [Node.text "there"]])) ≠ "") ∧
    processNode envAllOk (Node.elem "p" [Node.text "Hi ", Node.elem "b" [Node.text "there"]]) 0 =
      ([DocOp.insertParagraph "", DocOp.insertHtml "Hi <b>there</b>"], none) :=
  ⟨by decide,
   (claim_C8_paragraph_projection envAllOk [Node.elem "br" [], Node.text "\xA0 "] 0).1 (by decide),
   by decide,
   ((claim_C8_paragraph_projection envAllOk [Node.text "Hi ", Node.elem "b" [Node.text "there"]] 0).2
       (by decide)).trans (by decide)⟩

/-- C10: an element whose tag is none of the recognized ones is never
recursed into: its whole subtree is flattened to its trimmed text
content and emitted as at most one plain paragraph (none when the text
is empty), so a table or list nested below it yields no table insertion
and no list-paragraph styling. -/
theorem claim_C10_unrecognized_flattened (env : HostEnv) (tag : String) (cs : List Node)
    (level : Nat)
    (h : lowerStr tag ∉ ["h1", "h2", "h3", "ul", "ol", "table", "p", "div", "section", "article"]) :
    processNode env (Node.elem tag cs) level =
      (if jsTrim (textContent (Node.elem tag cs)) = "" then []
       else [DocOp.insertParagraph (jsTrim (textContent (Node.elem tag cs)))], none) ∧
    countTableOps (processNode env (Node.elem tag cs) level).1 = 0 ∧
    ∀ op ∈ (processNode env (Node.elem tag cs) level).1,
      op ≠ DocOp.setStyleBuiltIn WordStyle.listParagraph := by
  simp only [List.mem_cons, List.not_mem_nil, or_false, not_or] at h
  obtain ⟨h1, h2, h3, h4, h5, h6, h7, h8, h9, h10⟩ := h
  have hmain : processNode env (Node.elem tag cs) level =
      (if jsTrim (textContent (Node.elem tag cs)) = "" then []
       else [DocOp.insertParagraph (jsTrim (textContent (Node.elem tag cs)))], none) := by
    simp only [processNode, h1, h2, h3, h4, h5, h6, h7, h8, h9, h10]
    simp
  refine ⟨hmain, ?_, ?_⟩
  · rw [hmain]
    by_cases ht : jsTrim (textContent (Node.elem tag cs)) = "" <;>
      simp [ht, countTableOps, isTableOp]
  · rw [hmain]
    by_cases ht : jsTrim (textContent (Node.elem tag cs)) = "" <;> simp [ht]

/-- Witness for C10: a `blockquote` holding a whole table is flattened
to the single plain paragraph `"x"` — no table insertion happens. -/
theorem claim_C10_witness :
    (lowerStr "blockquote" ∉
      ["h1", "h2", "h3", "ul", "ol", "table", "p", "div", "section", "article"]) ∧
    processNode envAllOk
        (Node.elem "blockquote" [Node.elem "table" [Node.elem "tr" [Node.elem "td" [Node.text "x"]]]]) 0 =
      ([DocOp.insertParagraph "x"], none) ∧
    countTableOps
        (processNode envAllOk
          (Node.elem "blockquote" [Node.elem "table" [Node.elem "tr" [Node.elem "td" [Node.text "x"]]]]) 0).1 = 0 :=
  ⟨by decide,
   ((claim_C10_unrecognized_flattened envAllOk "blockquote"
       [Node.elem "table" [Node.elem "tr" [Node.elem "td" [Node.text "x"]]]] 0 (by decide)).1).trans
     (by decide),
   (claim_C10_unrecognized_flattened envAllOk "blockquote"
       [Node.elem "table" [Node.elem "tr" [Node.elem "td" [Node.text "x"]]]] 0 (by decide)).2.1⟩

/-- The `<ul>`/`<ol>` dispatch of `processNode`, isolated. -/
theorem processNode_list (env : HostEnv) (tag : String) (cs : List Node) (level : Nat)
    (h : lowerStr tag = "ul" ∨ lowerStr tag = "ol") :
    processNode env (.elem tag cs) level = (processList env (.elem tag cs) level, none) := by
  rcases h with h | h <;> (simp only [processNode]; rw [h]; simp)

theorem listFlatMapCongr {α β : Type} {l : List α} {f g : α → List β}
    (h : ∀ a ∈ l, f a = g a) : l.flatMap f = l.flatMap g := by
  induction l with
  | nil => rfl
  | cons a as ih =>
    simp only [List.flatMap_cons]
    rw [h a (by simp), ih (fun x hx => h x (by simp [hx]))]

theorem snd_mem_of_mem_enumFrom {α : Type} {p : Nat × α} :
    ∀ {l : List α} {i : Nat}, p ∈ List.enumFrom i l → p.2 ∈ l := by
  intro l
  induction l with
  | nil => intro i h; cases h
  | cons a as ih =>
    intro i h
    rw [List.enumFrom_cons] at h
    cases h with
    | head => simp
    | tail _ h2 => exact List.mem_cons_of_mem a (ih h2)

/-- C5: for a list node at any nesting level, the line emitted for the
`i`-th of its `n` direct list items (0-based enumeration, restarted for
each list regardless of the list's own nesting level) carries exactly
the marker `"{i+1}."` for an ordered list — so the markers are `"1."`,
`"2."`, …, `"n."` in document order — or the fixed bullet glyph `"•"`
for an unordered one, and is indented by exactly four spaces per nesting
level; nested sublists only contribute operations after their own item's
line. -/
theorem claim_C5_list_markers (env : HostEnv) (tag : String) (cs : List Node) (level : Nat)
    (htag : lowerStr tag = "ul" ∨ lowerStr tag = "ol") :
    (processNode env (Node.elem tag cs) level).2 = none ∧
    (processNode env (Node.elem tag cs) level).1 =
      (List.enum (listItems (Node.elem tag cs))).flatMap (fun p =>
        DocOp.insertParagraph
            (String.mk (List.replicate (level * 4) ' ') ++
              (if lowerStr tag = "ol" then toString (p.1 + 1) ++ "." else "•") ++ " " ++
              listItemText p.2) ::
          DocOp.setStyleBuiltIn WordStyle.listParagraph ::
          (match nestedListOf p.2 with
           | some nested => processList env nested (level + 1)
           | none => [])) := by
  rw [processNode_list env tag cs level htag]
  refine ⟨rfl, ?_⟩
  show processList env (Node.elem tag cs) level = _
  rw [processList_elem_eq]
  by_cases hempty : (listItems (Node.elem tag cs)).isEmpty
  · have hnil : listItems (Node.elem tag cs) = [] := by
      simpa using hempty
    simp [hempty, hnil]
  · simp only [hempty, Bool.false_eq_true, if_false]
    have henum : List.enum (listItems (Node.elem tag cs)) =
        List.enumFrom 0 (listItems (Node.elem tag cs)) := rfl
    rw [henum]
    apply listFlatMapCongr
    intro p hp
    simp [itemMarker, indentStr]

/-- Witness for C5: a three-item ordered list nested two levels deep
(`level = 2`) gets markers `1.`, `2.`, `3.` and eight spaces of indent. -/
theorem claim_C5_witness :
    (lowerStr "ol" = "ul" ∨ lowerStr "ol" = "ol") ∧
    (processNode envAllOk
        (Node.elem "ol"
          [Node.elem "li" [Node.text "a"], Node.elem "li" [Node.text "b"],
           Node.elem "li" [Node.text "c"]]) 2).1 =
      [DocOp.insertParagraph "        1. a", DocOp.setStyleBuiltIn .listParagraph,
       DocOp.insertParagraph "        2. b", DocOp.setStyleBuiltIn .listParagraph,
       DocOp.insertParagraph "        3. c", DocOp.setStyleBuiltIn .listParagraph] :=
  ⟨by decide,
   ((claim_C5_list_markers envAllOk "ol"
       [Node.elem "li" [Node.text "a"], Node.elem "li" [Node.text "b"],
        Node.elem "li" [Node.text "c"]] 2 (by decide)).2).trans
     (by decide)⟩

/-- C6: for a list node, the emitted sequence is, per item in document
order: the item's own paragraph — built from the item's first child's
text, not from the whole subtree — immediately styled, followed by the
operations of the item's nested list (if any) processed at
`nestingLevel + 1`, so nested items appear as subsequent sibling
paragraphs with deeper indentation before the next item's line. -/
theorem claim_C6_nested_list_interleaving (env : HostEnv) (tag : String) (cs : List Node)
    (level : Nat) (htag : lowerStr tag = "ul" ∨ lowerStr tag = "ol") :
    processNode env (Node.elem tag cs) level =
      ((List.enum (listItems (Node.elem tag cs))).flatMap (fun p =>
        DocOp.insertParagraph
            (indentStr level ++ itemMarker (lowerStr tag = "ol") p.1 ++ " " ++ listItemText p.2) ::
          DocOp.setStyleBuiltIn WordStyle.listParagraph ::
          (match nestedListOf p.2 with
           | some nested => processList env nested (level + 1)
           | none => [])), none) := by
  rw [processNode_list env tag cs level htag]
  have hfst : processList env (Node.elem tag cs) level =
      (List.enum (listItems (Node.elem tag cs))).flatMap (fun p =>
        DocOp.insertParagraph
            (indentStr level ++ itemMarker (lowerStr tag = "ol") p.1 ++ " " ++ listItemText p.2) ::
          DocOp.setStyleBuiltIn WordStyle.listParagraph ::
          (match nestedListOf p.2 with
           | some nested => processList env nested (level + 1)
           | none => [])) := by
    rw [processList_elem_eq]
    by_cases hempty : (listItems (Node.elem tag cs)).isEmpty
    · have hnil : listItems (Node.elem tag cs) = [] := by
        simpa using hempty
      simp [hempty, hnil]
    · simp only [hempty, Bool.false_eq_true, if_false]
      rfl
  rw [hfst]

/-- Witness for C6 at the specification's own example: an unordered list
`["a", "b"]` with an ordered list `["x", "y"]` nested under `"a"`
produces, in order, bullet `a`, nested `1. x`, `2. y` (one extra indent
level), then bullet `b`. -/
theorem claim_C6_witness :
    (lowerStr "ul" = "ul" ∨ lowerStr "ul" = "ol") ∧
    processNode envAllOk
        (Node.elem "ul"
          [Node.elem "li" [Node.text "a",
             Node.elem "ol" [Node.elem "li" [Node.text "x"], Node.elem "li" [Node.text "y"]]],
           Node.elem "li" [Node.text "b"]]) 0 =
      ([DocOp.insertParagraph "• a", DocOp.setStyleBuiltIn .listParagraph,
        DocOp.insertParagraph "    1. x", DocOp.setStyleBuiltIn .listParagraph,
        DocOp.insertParagraph "    2. y", DocOp.setStyleBuiltIn .listParagraph,
        DocOp.insertParagraph "• b", DocOp.setStyleBuiltIn .listParagraph], none) :=
  ⟨by decide,
   (claim_C6_nested_list_interleaving envAllOk "ul"
       [Node.elem "li" [Node.text "a",
          Node.elem "ol" [Node.elem "li" [Node.text "x"], Node.elem "li" [Node.text "y"]]],
        Node.elem "li" [Node.text "b"]] 0 (by decide)).trans
     (by decide)⟩

theorem parseHTMLTable_grid_ne_nil {t : Node} {g : List (List String)}
    (h : parseHTMLTable t = .ok (some g)) : g ≠ [] := by
  unfold parseHTMLTable parseHTMLTableLog at h
  by_cases hlen : (querySelectorAll ["tr"] t).length < 1
  · simp [hlen] at h
  · simp only [hlen, if_false] at h
    match hc : collectedRows t with
    | [] =>
      rw [hc] at h
      simp at h
    | first :: rest =>
      rw [hc] at h
      by_cases hall : (first :: rest).all (fun r => r.length = first.length)
      · simp only [hall, if_pos, Except.ok.injEq, Option.some.injEq] at h
        subst h
        simp
      · simp [hall] at h

/-- C7 (counterexample): the claim that a failure of the table's
best-effort zero-spacing adjustment is swallowed like the heading one is
false as stated.  The heading adjustment sits in a `try`/`catch`; the
table spacing block (`context.load`, `await context.sync()`,
`getRange().paragraphFormat`) does not.  With a host whose sync inside
that block rejects, the error propagates out of `insertWordTable`: the
enclosing walk stops with `hostError` and the sibling heading after the
table is never projected — while the identical failure on the heading
path is caught and the walk goes on. -/
theorem claim_C7_counterexample :
    (processChildren { envAllOk with tableLoadSyncOk := false }
        [Node.elem "table" [Node.elem "tr" [Node.elem "td" [Node.text "x"]]],
         Node.elem "h1" [Node.text "After"]] 0).2 = some JsError.hostError ∧
    paragraphTexts
        (processChildren { envAllOk with tableLoadSyncOk := false }
          [Node.elem "table" [Node.elem "tr" [Node.elem "td" [Node.text "x"]]],
           Node.elem "h1" [Node.text "After"]] 0).1 = [] ∧
    processNode { envAllOk with headingSpacingWorks := false }
        (Node.elem "h1" [Node.text "After"]) 0 =
      ([DocOp.insertParagraph "After", DocOp.setStyleBuiltIn .heading1], none) ∧
    (processChildren envAllOk
        [Node.elem "table" [Node.elem "tr" [Node.elem "td" [Node.text "x"]]],
         Node.elem "h1" [Node.text "After"]] 0).2 = none :=
  ⟨rfl, rfl, rfl, rfl⟩

/-- C7 (amended): the failure mode the table spacing block does guard
against — `table.getRange().paragraphFormat` being unavailable — is
non-fatal exactly as the claim intends: the spacing assignments are
skipped, no error escapes, the appended table (with its borders) is
preserved, and the projection walk continues with the following sibling
nodes.  (A rejected `sync` inside the block, by contrast, is not caught;
see the counterexample.) -/
theorem claim_C7_table_spacing_nonfatal (env : HostEnv) (cs rest : List Node) (level : Nat)
    (g : List (List String))
    (henv : env.tableLoadSyncOk = true ∧ env.tableFinalSyncOk = true ∧
            env.tableRangeParagraphFormatPresent = false)
    (hparse : parseHTMLTable (Node.elem "table" cs) = .ok (some g)) :
    (processNode env (Node.elem "table" cs) level).2 = none ∧
    DocOp.insertTable (normalizeGrid g).length (normalizeGrid g).headI.length
        (normalizeGrid g) ∈ (processNode env (Node.elem "table" cs) level).1 ∧
    (∀ op ∈ (processNode env (Node.elem "table" cs) level).1,
      op ≠ DocOp.setSpaceBefore 0 ∧ op ≠ DocOp.setSpaceAfter 0) ∧
    (processChildren env (Node.elem "table" cs :: rest) level).1 =
      (processNode env (Node.elem "table" cs) level).1 ++
        (processChildren env rest level).1 := by
  obtain ⟨hload, hfinal, hpf⟩ := henv
  obtain ⟨gf, gr, hg⟩ : ∃ gf gr, g = gf :: gr := by
    match g, parseHTMLTable_grid_ne_nil hparse with
    | gf :: gr, _ => exact ⟨gf, gr, rfl⟩
  subst hg
  have hnode : processNode env (Node.elem "table" cs) level =
      (DocOp.insertTable (normalizeGrid (gf :: gr)).length
          (normalizeGrid (gf :: gr)).headI.length (normalizeGrid (gf :: gr)) ::
        (if env.clearFormatsAvailable then [DocOp.clearFormats] else []) ++ borderOps,
       none) := by
    rw [processNode_table, hparse]
    show insertWordTable env (gf :: gr) = _
    unfold insertWordTable
    simp only [normalizeGrid, List.map_cons, hload, hfinal, hpf]
    simp [List.headI]
  refine ⟨?_, ?_, ?_, ?_⟩
  · rw [hnode]
  · rw [hnode]
    simp [normalizeGrid]
  · rw [hnode]
    intro op hop
    simp only [List.mem_append, List.mem_cons] at hop
    rcases hop with (hop | hop) | hop
    · subst hop
      exact ⟨by simp, by simp⟩
    · by_cases hcf : env.clearFormatsAvailable
      · simp only [hcf, if_pos, List.mem_singleton] at hop
        subst hop
        exact ⟨by simp, by simp⟩
      · simp [hcf] at hop
    · simp only [borderOps, List.mem_cons, List.not_mem_nil, or_false] at hop
      rcases hop with h | h | h | h | h | h <;> (subst h; exact ⟨by simp, by simp⟩)
  · simp only [processChildren]
    rw [hnode]

/-- Witness for C7 (amended) at a one-cell table followed by a heading:
with `paragraphFormat` unavailable on the table's range, the table is
still appended and the heading after it is still projected. -/
theorem claim_C7_witness :
    (({ envAllOk with tableRangeParagraphFormatPresent := false } : HostEnv).tableLoadSyncOk = true ∧
      ({ envAllOk with tableRangeParagraphFormatPresent := false } : HostEnv).tableFinalSyncOk = true ∧
      ({ envAllOk with tableRangeParagraphFormatPresent := false } : HostEnv).tableRangeParagraphFormatPresent = false) ∧
    parseHTMLTable (Node.elem "table" [Node.elem "tr" [Node.elem "td" [Node.text "x"]]]) =
      .ok (some [["x"]]) ∧
    ((processNode { envAllOk with tableRangeParagraphFormatPresent := false }
        (Node.elem "table" [Node.elem "tr" [Node.elem "td" [Node.text "x"]]]) 0).2 = none ∧
      DocOp.insertTable (normalizeGrid [["x"]]).length (normalizeGrid [["x"]]).headI.length
          (normalizeGrid [["x"]]) ∈
        (processNode { envAllOk with tableRangeParagraphFormatPresent := false }
          (Node.elem "table" [Node.elem "tr" [Node.elem "td" [Node.text "x"]]]) 0).1 ∧
      (∀ op ∈ (processNode { envAllOk with tableRangeParagraphFormatPresent := false }
          (Node.elem "table" [Node.elem "tr" [Node.elem "td" [Node.text "x"]]]) 0).1,
        op ≠ DocOp.setSpaceBefore 0 ∧ op ≠ DocOp.setSpaceAfter 0) ∧
      (processChildren { envAllOk with tableRangeParagraphFormatPresent := false }
          (Node.elem "table" [Node.elem "tr" [Node.elem "td" [Node.text "x"]]] ::
            [Node.elem "h1" [Node.text "After"]]) 0).1 =
        (processNode { envAllOk with tableRangeParagraphFormatPresent := false }
            (Node.elem "table" [Node.elem "tr" [Node.elem "td" [Node.text "x"]]]) 0).1 ++
          (processChildren { envAllOk with tableRangeParagraphFormatPresent := false }
            [Node.elem "h1" [Node.text "After"]] 0).1) :=
  ⟨by decide, rfl,
   claim_C7_table_spacing_nonfatal { envAllOk with tableRangeParagraphFormatPresent := false }
     [Node.elem "tr" [Node.elem "td" [Node.text "x"]]] [Node.elem "h1" [Node.text "After"]] 0
     [["x"]] (by decide) rfl⟩
